import Mathlib

/-!
Verification of the capture / replay-decision / assertion-verification /
concurrent-execution engine of the ui-test-automation repository.

The definitions below are a shallow embedding of the TypeScript sources:
  * `src/data/dataStore.ts`      — persisted JSON documents and `saveTestResults`
  * `src/testExecutor.ts` and `src/executor/*` — the per-step execution loop,
    the page-settle wait and the replay/plan decision
  * `src/ai/aiAssertionEngine.ts` — assertion planning and execution
  * `src/index.ts`               — the batched concurrency scheduler
  * `src/recorder/actionRecorder.ts` — near-duplicate event dropping

External effects (the browser driver, the AI planner/observer, the clock) are
passed in as explicit environments, so every function is executable.
-/

namespace UiTest

/-! ## JSON values (for the loosely-typed parts of the code)

`aiAssertionEngine.ts` receives persisted assertion plans as parsed JSON of
unknown shape; the reuse check and the zod schema operate on that raw value,
so they are modelled over a JSON type with JavaScript truthiness. -/

/-- A parsed JSON value (numbers restricted to integers, which is all the
code ever compares). -/
inductive Json where
  | null : Json
  | bool (b : Bool) : Json
  | num (n : Int) : Json
  | str (s : String) : Json
  | arr (items : List Json) : Json
  | obj (fields : List (String × Json)) : Json

/-- Property access `j[k]` on a parsed JSON object. `JSON.parse` keeps the
last binding for a duplicated key, so lookup scans left to right and keeps
the last match. -/
def jsonGet (j : Json) (k : String) : Option Json :=
  match j with
  | .obj fields => fields.foldl (fun acc p => if p.1 = k then some p.2 else acc) none
  | _ => none

/-- JavaScript truthiness of a JSON value. -/
def jsTruthy : Json → Bool
  | .null => false
  | .bool b => b
  | .num n => n != 0
  | .str s => s != ""
  | .arr _ => true
  | .obj _ => true

/-- The `.length` property of a JSON value: arrays and strings expose their
length, objects expose an own `length` field if present, everything else
yields `undefined` (`none`). -/
def jsLengthProp : Json → Option Json
  | .arr items => some (.num items.length)
  | .str s => some (.num s.length)
  | .obj fields => jsonGet (.obj fields) "length"
  | _ => none

/-! ## Data model (`src/data/dataStore.ts`, `src/executor/types.ts`) -/

/-- One replayable action (`ActionJson` in `dataStore.ts`): selector,
human-readable description, replay method and ordered string arguments. -/
structure ActionJson where
  selector : String
  description : String
  method : String
  arguments : List String
  deriving Repr, DecidableEq

/-- Persisted per-step act result (`ActResultJson` in `dataStore.ts`).
The two wait flags are optional booleans (`undefined` = `none`). -/
structure ActResultJson where
  success : Bool
  message : String
  actionDescription : String
  actions : List ActionJson
  pageLoadWaitAttempted : Option Bool
  pageLoadWaitTimedOut : Option Bool
  deriving Repr, DecidableEq

/-- Execution status used by both step and case results. -/
inductive Status where
  | pending : Status
  | passed : Status
  | failed : Status
  deriving Repr, DecidableEq

/-- An assertion-plan item (`aiAssertionEngine.ts`): either an explicit URL
containment check or a free-text observation query for `stagehand.observe`. -/
inductive AssertionItem where
  | url (value : String) : AssertionItem
  | obs (text : String) : AssertionItem
  deriving Repr, DecidableEq

/-- A structured assertion plan (`AssertionPlan` in `aiAssertionEngine.ts`). -/
structure AssertionPlan where
  summary : String
  assertions : List AssertionItem
  deriving Repr, DecidableEq

/-- Runtime result of one step (`StepResult` in `testExecutor.ts`). -/
structure StepResult where
  stepNumber : Nat
  description : String
  status : Status
  error : Option String
  actResult : Option ActResultJson
  pageLoadWaitAttempted : Option Bool
  pageLoadWaitTimedOut : Option Bool
  deriving Repr, DecidableEq

/-- Runtime result of one test case (`TestResult` in `testExecutor.ts`).
Dates are carried as their ISO strings. -/
structure TestResult where
  id : String
  name : String
  url : String
  status : Status
  steps : List StepResult
  expectedResult : String
  actualResult : String
  error : Option String
  startTime : String
  endTime : Option String
  duration : Nat
  skipPageLoadWait : Option Bool
  assertionPlan : Option AssertionPlan
  tracePath : Option String
  log : Option String
  deriving Repr, DecidableEq

/-- Persisted per-case result (`TestResultJson` in `dataStore.ts`). -/
structure TestResultJson where
  status : Status
  steps : List ActResultJson
  actualResult : String
  error : Option String
  startTime : String
  endTime : Option String
  duration : Nat
  assertionPlan : Option AssertionPlan
  tracePath : Option String
  log : Option String
  deriving Repr, DecidableEq

/-- Recorded API request/response pair (`ApiRecordItem` in `dataStore.ts`);
the response snapshot is kept as raw JSON. -/
structure ApiRecordItem where
  requestSchema : Option String
  response : Option Json

/-- Persisted test case (`TestCaseJson` in `dataStore.ts`). -/
structure TestCaseJson where
  id : String
  name : String
  url : String
  steps : List String
  expectedResult : String
  description : String
  apiUrls : Option (List String)
  validateApiUrls : Option (List String)
  apiRecords : Option (List (String × ApiRecordItem))
  result : Option TestResultJson

/-- Run statistics (`TestStatistics` in `testExecutor.ts`). -/
structure TestStatistics where
  total : Nat
  passed : Nat
  failed : Nat
  passRate : String
  totalDuration : String
  averageDuration : String
  deriving Repr, DecidableEq

/-- The data file layout (`DataFile` in `dataStore.ts`); the two deprecated
fields are carried untouched. -/
structure DataFile where
  sourceFile : String
  testCases : List TestCaseJson
  statistics : Option TestStatistics
  lastRun : Option String
  apiRecords : Option (List (String × List (String × ApiRecordItem)))
  apiUrlMapping : Option (List (String × List String))

/-! ## `saveTestResults` (`src/data/dataStore.ts` lines 243-329) -/

/-- Model of `new Map(entries)` followed by `.get k`: later entries overwrite earlier
ones, so lookup returns the last binding for `k`. -/
def mapLookup {α : Type} (entries : List (String × α)) (k : String) : Option α :=
  entries.foldl (fun acc p => if p.1 = k then some p.2 else acc) none

/-- The per-flag accumulation rule of `saveTestResults`:
`current === true || prev === true ? true : current ?? prev`. -/
def mergeWaitFlag (current prev : Option Bool) : Option Bool :=
  if current = some true ∨ prev = some true then some true
  else current.orElse (fun _ => prev)

/-- The body of the `.map((s, index) => ...)` over a run's step results:
steps without a usable `actResult` yield `undefined`; otherwise the act
result is persisted with both wait flags merged against the previously
persisted step at the same index. -/
def persistStepResult (prevSteps : List ActResultJson) (index : Nat)
    (s : StepResult) : Option ActResultJson :=
  match s.actResult with
  | none => none
  | some act =>
    let prevStep := prevSteps[index]?
    let currentAttempted := s.pageLoadWaitAttempted
    let currentTimedOut := s.pageLoadWaitTimedOut
    let prevAttempted := prevStep.bind ActResultJson.pageLoadWaitAttempted
    let prevTimedOut := prevStep.bind ActResultJson.pageLoadWaitTimedOut
    some { act with
      pageLoadWaitAttempted := mergeWaitFlag currentAttempted prevAttempted
      pageLoadWaitTimedOut := mergeWaitFlag currentTimedOut prevTimedOut }

/-- The previously persisted steps of a case (`prevResult?.steps`, with a
missing result read as the empty list). -/
def prevStepsOf (prevResult : Option TestResultJson) : List ActResultJson :=
  (prevResult.map TestResultJson.steps).getD []

/-- Mirror of `r.steps.map((s, index) => ...).filter(a => !!a && Array.isArray(a.actions))`:
the persistable steps of the current run, merged against history. -/
def saveStepsForCase (prevResult : Option TestResultJson)
    (runSteps : List StepResult) : List ActResultJson :=
  (runSteps.enum.map (fun p => persistStepResult (prevStepsOf prevResult) p.1 p.2)).filterMap id

/-- Mirror of `steps.length > 0 ? steps : (prevResult?.steps?.length ? prevResult.steps : steps)`. -/
def stepsToWrite (prevResult : Option TestResultJson)
    (runSteps : List StepResult) : List ActResultJson :=
  let steps := saveStepsForCase prevResult runSteps
  if steps.length > 0 then steps
  else if (prevStepsOf prevResult).length > 0 then prevStepsOf prevResult
  else steps

/-- Building the `TestResultJson` written for a case that has a result in
the current run (`resultJson` in `saveTestResults`). -/
def toResultJson (r : TestResult) (prevResult : Option TestResultJson) : TestResultJson :=
  { status := r.status
    steps := stepsToWrite prevResult r.steps
    actualResult := r.actualResult
    error := r.error
    startTime := r.startTime
    endTime := r.endTime
    duration := r.duration
    assertionPlan := r.assertionPlan.orElse (fun _ => prevResult.bind TestResultJson.assertionPlan)
    tracePath := r.tracePath
    log := match r.log with
      | some l => if l = "" then none else some l
      | none => none }

/-- Model of `saveTestResults` (`dataStore.ts`): merge a run's results into
the data file. `now` is the ISO timestamp written to `lastRun`. -/
def saveTestResults (data : DataFile) (results : List TestResult)
    (statistics : TestStatistics) (now : String) : DataFile :=
  let resultById := results.map (fun r => (r.id, r))
  let existingById := data.testCases.map (fun tc => (tc.id, tc))
  { data with
    statistics := some statistics
    lastRun := some now
    testCases := data.testCases.map (fun tc =>
      let r := mapLookup resultById tc.id
      let prevResult := (mapLookup existingById tc.id).bind TestCaseJson.result
      match r with
      | none => { tc with result := prevResult }
      | some r => { tc with result := some (toResultJson r prevResult) }) }

/-! ## Page-settle wait -/

/-- Environment of one page-settle wait: whether a page object is available,
whether the `networkidle` wait times out, and the URL read after the wait. -/
structure PageWaitEnv where
  pagePresent : Bool
  networkidleTimedOut : Bool
  urlAfterLoad : String
  deriving Repr, DecidableEq

/-- The pair of flags returned by the page-settle wait. -/
structure WaitFlags where
  attempted : Bool
  timedOut : Bool
  deriving Repr, DecidableEq

namespace TestExecutorTs

/-- Model of `waitForPageLoadIfUrlChanged` from the monolithic
`src/testExecutor.ts` (lines 324-352): `attempted` is set right before the
`networkidle` wait and `timedOut` when that wait throws; the URL comparison
only decides whether the extra 500ms pause runs and leaves both flags
unchanged. -/
def waitForPageLoadIfUrlChanged (env : PageWaitEnv) (urlBeforeAct : String) : WaitFlags :=
  if env.pagePresent = false then { attempted := false, timedOut := false }
  else
    let attempted := true
    let timedOut := env.networkidleTimedOut
    if env.urlAfterLoad = urlBeforeAct then { attempted := attempted, timedOut := timedOut }
    else { attempted := attempted, timedOut := timedOut }

end TestExecutorTs

namespace PageLoadWaitTs

/-- Model of `waitForPageLoadIfUrlChanged` from the modular
`src/executor/pageLoadWait.ts`: identical to the monolithic version except
that the URL-unchanged branch returns `timedOut: true` regardless of whether
the `networkidle` wait threw. -/
def waitForPageLoadIfUrlChanged (env : PageWaitEnv) (urlBeforeAct : String) : WaitFlags :=
  if env.pagePresent = false then { attempted := false, timedOut := false }
  else
    let attempted := true
    let timedOut := env.networkidleTimedOut
    if env.urlAfterLoad = urlBeforeAct then { attempted := attempted, timedOut := true }
    else { attempted := attempted, timedOut := timedOut }

end PageLoadWaitTs

/-! ## Raw act results and the Action Codec (`normalizeActResult`) -/

/-- A raw action as returned by the planner/capture layer; every field may
be missing. -/
structure RawAction where
  selector : Option String
  description : Option String
  method : Option String
  arguments : Option (List String)
  deriving Repr, DecidableEq

/-- The raw, duck-typed value returned by `stagehand.act`: `null`/`undefined`
(`nil`), an array of actions, an object (with optional `success`, `message`,
`error`, `actionDescription` and `actions` fields), or a non-object
primitive. -/
inductive RawActResult where
  | nil : RawActResult
  | arr (actions : List RawAction) : RawActResult
  | obj (success : Option Bool) (message : Option String) (error : Option String)
      (actionDescription : Option String) (actions : Option (List RawAction)) : RawActResult
  | prim (s : String) : RawActResult
  deriving Repr, DecidableEq

/-- Normalization of one raw action (`a?.selector ?? ''` and friends). -/
def normalizeRawAction (a : RawAction) : ActionJson :=
  { selector := a.selector.getD ""
    description := a.description.getD ""
    method := a.method.getD ""
    arguments := a.arguments.getD [] }

/-- Model of `normalizeActResult` (`testExecutor.ts` lines 357-382): a falsy
input, or an input without a non-empty action list, yields `undefined`. -/
def normalizeActResult (raw : RawActResult) (stepDescription : String) : Option ActResultJson :=
  match raw with
  | .nil => none
  | .prim _ => none
  | .arr actions0 =>
    let actions := actions0.map normalizeRawAction
    if actions.length = 0 then none
    else some { success := true, message := "", actionDescription := stepDescription,
                actions := actions, pageLoadWaitAttempted := none, pageLoadWaitTimedOut := none }
  | .obj success message _ actionDescription actions0 =>
    let actions := (actions0.getD []).map normalizeRawAction
    if actions.length = 0 then none
    else some { success := success != some false, message := message.getD "",
                actionDescription := actionDescription.getD stepDescription,
                actions := actions, pageLoadWaitAttempted := none, pageLoadWaitTimedOut := none }

/-! ## The per-step execution loop (`executeTestCase`) -/

/-- Environment of one step execution: the URL captured before the act, the
outcome of the natural-language planner call, the outcomes of the per-action
replay calls, and the page-settle wait environment. `Except.error` models a
rejected promise carrying its message. -/
structure StepEnv where
  urlBeforeAct : String
  planAct : Except String RawActResult
  replayAct : Nat → Except String RawActResult
  wait : PageWaitEnv

/-- Condition of the replay-vs-plan decision:
`stepHistory?.actions?.length` is truthy. -/
def hasRecordedActions (stepHistory : Option ActResultJson) : Bool :=
  match stepHistory with
  | some h => h.actions.length != 0
  | none => false

/-- Whether an act result is an object with `success === false`. -/
def actFailedObj : RawActResult → Bool
  | .obj success _ _ _ _ => success == some false
  | _ => false

/-- JavaScript `x || ...` seen from an optional string: an empty string falls
through to the next alternative. -/
def truthyStr (o : Option String) : Option String :=
  match o with
  | some s => if s = "" then none else some s
  | none => none

/-- The message thrown when a replayed action reports failure:
`(actResult.error ?? actResult.message) || '回放操作失败'`. -/
def replayFailureMsg : RawActResult → String
  | .obj _ message error _ _ =>
    (truthyStr (error.orElse fun _ => message)).getD "回放操作失败"
  | _ => "回放操作失败"

/-- The message thrown when the plan-path act reports failure:
`Stagehand 操作失败: ${message || error || '操作执行失败'}
(指令: ${actionDescription || step})`. -/
def planFailureMsg (raw : RawActResult) (step : String) : String :=
  match raw with
  | .obj _ message error actionDescription _ =>
    let errorMessage := ((truthyStr message).orElse fun _ => truthyStr error).getD "操作执行失败"
    let desc := (truthyStr actionDescription).getD step
    "Stagehand 操作失败: " ++ errorMessage ++ " (指令: " ++ desc ++ ")"
  | _ => "Stagehand 操作失败: 操作执行失败 (指令: " ++ step ++ ")"

/-- The replay loop over the cached actions: each `stagehand.act(action)`
either rejects or returns a value that is checked for `success === false`.
Returns the thrown message, if any. -/
def runReplayActions (replayAct : Nat → Except String RawActResult) :
    Nat → List ActionJson → Option String
  | _, [] => none
  | j, _ :: rest =>
    match replayAct j with
    | .error m => some m
    | .ok raw =>
      if actFailedObj raw then some (replayFailureMsg raw)
      else runReplayActions replayAct (j + 1) rest

/-- The act phase of one step: replay when the step history holds a
non-empty action list (the cached `actResult` is then reused verbatim),
otherwise the natural-language plan path through `stagehand.act(step)`.
Returns the step's recorded `actResult` on success and the thrown message on
failure; the second component counts the AI planner calls made. -/
def runActPhase (env : StepEnv) (stepText : String)
    (stepHistory : Option ActResultJson) : Except String (Option ActResultJson) × Nat :=
  if hasRecordedActions stepHistory then
    match stepHistory with
    | some h =>
      (match runReplayActions env.replayAct 0 h.actions with
       | some m => (.error m, 0)
       | none => (.ok (some h), 0))
    | none => (.ok none, 0)
  else
    match env.planAct with
    | .error m => (.error m, 1)
    | .ok raw =>
      if actFailedObj raw then (.error (planFailureMsg raw stepText), 1)
      else (.ok (normalizeActResult raw stepText), 1)

/-- Execution of one step of `executeTestCase` (`testExecutor.ts` lines
464-638): the act phase, then the history-based wait-skip decision
(`skipWaitForThisStep`), then the wait flags are written into the step
result. On failure the failed `StepResult` (status `failed`, error set) is
returned through `Except.error`; the loop rethrows it without pushing. -/
def execStep (env : StepEnv) (i : Nat) (stepText : String)
    (stepHistory : Option ActResultJson) : Except StepResult StepResult × Nat :=
  let base : StepResult :=
    { stepNumber := i + 1, description := stepText, status := .pending, error := none,
      actResult := none, pageLoadWaitAttempted := none, pageLoadWaitTimedOut := none }
  match runActPhase env stepText stepHistory with
  | (.error m, calls) =>
    (.error { base with status := .failed, error := some m }, calls)
  | (.ok actRes, calls) =>
    let skipWaitForThisStep : Bool :=
      match stepHistory with
      | some h => h.pageLoadWaitTimedOut == some true
      | none => false
    let flags :=
      if skipWaitForThisStep then ({ attempted := false, timedOut := false } : WaitFlags)
      else TestExecutorTs.waitForPageLoadIfUrlChanged env.wait env.urlBeforeAct
    (.ok { base with
        status := .passed
        actResult := actRes
        pageLoadWaitAttempted := some flags.attempted
        pageLoadWaitTimedOut := some flags.timedOut }, calls)

/-- Outcome of the step loop of `executeTestCase`: the pushed step results,
the number of AI planner calls, and the failed step's result when a step
threw (the loop rethrows before the push, so that result is never in
`steps`). -/
structure ExecOutcome where
  steps : List StepResult
  plannerCalls : Nat
  failure : Option StepResult
  deriving Repr, DecidableEq

/-- The step loop of `executeTestCase`, starting at step index `i`; a step
failure aborts the remaining steps. -/
def execStepsFrom (envs : Nat → StepEnv) (historicalSteps : Option (List ActResultJson)) :
    Nat → List String → ExecOutcome
  | _, [] => { steps := [], plannerCalls := 0, failure := none }
  | i, stepText :: rest =>
    match execStep (envs i) i stepText (historicalSteps.bind fun hs => hs[i]?) with
    | (.error failed, calls) => { steps := [], plannerCalls := calls, failure := some failed }
    | (.ok passed, calls) =>
      { steps := passed :: (execStepsFrom envs historicalSteps (i + 1) rest).steps
        plannerCalls := calls + (execStepsFrom envs historicalSteps (i + 1) rest).plannerCalls
        failure := (execStepsFrom envs historicalSteps (i + 1) rest).failure }

/-- The full step loop of `executeTestCase` over a case's steps. -/
def execSteps (envs : Nat → StepEnv) (steps : List String)
    (historicalSteps : Option (List ActResultJson)) : ExecOutcome :=
  execStepsFrom envs historicalSteps 0 steps

/-! ## Assertion planning and execution (`src/ai/aiAssertionEngine.ts`) -/

/-- Whether `l` starts with the pattern `pat`. -/
def listStartsWith (l pat : List Char) : Bool :=
  match l, pat with
  | _, [] => true
  | [], _ :: _ => false
  | c :: cs, d :: ds => c == d && listStartsWith cs ds

/-- Whether `pat` occurs as a contiguous run inside `l`. -/
def listContainsSub (pat : List Char) : List Char → Bool
  | [] => pat.isEmpty
  | c :: cs => listStartsWith (c :: cs) pat || listContainsSub pat cs

/-- JavaScript `s.includes(sub)`: substring containment. -/
def jsIncludes (s sub : String) : Bool :=
  listContainsSub sub.toList s.toList

/-- Environment of assertion execution: the current page URL and the observe
capability, returning the descriptions of the matches it found. -/
structure AssertEnv where
  pageUrl : String
  observe : String → List String

/-- Execution of one assertion item (the loop body of `runAssertionPlan`,
lines 109-129): a URL item checks substring containment of `value` in the
current page URL and throws with the actual URL in the message on mismatch;
an observation item is delegated to `stagehand.observe` and throws when zero
matches come back. Returns the success log line otherwise. -/
def runAssertionItem (env : AssertEnv) (idx : Nat) : AssertionItem → Except String String
  | .url value =>
    let url := env.pageUrl
    if jsIncludes url value = false then
      .error ("断言 #" ++ toString (idx + 1) ++ " 未通过: URL 不包含 \"" ++ value ++ "\"，当前: " ++ url)
    else .ok ("[#" ++ toString (idx + 1) ++ "] ✓ URL 包含: " ++ value)
  | .obs text =>
    let actions := env.observe text
    if actions.length = 0 then
      .error ("断言 #" ++ toString (idx + 1) ++ " 未通过: 未找到「" ++ text ++ "」")
    else .ok ("[#" ++ toString (idx + 1) ++ "] ✓ " ++ text)

/-- The assertion loop of `runAssertionPlan`: items run in order and the
first failure aborts the whole plan immediately. -/
def runAssertionItems (env : AssertEnv) : Nat → List AssertionItem → Except String (List String)
  | _, [] => .ok []
  | idx, item :: rest =>
    match runAssertionItem env idx item with
    | .error m => .error m
    | .ok line =>
      match runAssertionItems env (idx + 1) rest with
      | .error m => .error m
      | .ok lines => .ok (line :: lines)

/-- Model of `runAssertionPlan`: the header line plus the per-item log
lines, or the first thrown assertion failure. -/
def runAssertionPlan (env : AssertEnv) (plan : AssertionPlan) : Except String String :=
  match runAssertionItems env 0 plan.assertions with
  | .error m => .error m
  | .ok lines => .ok (String.intercalate "\n" (("断言计划: " ++ plan.summary) :: lines))

/-- The reuse condition of `verifyExpectedResultWithAI` (lines 149-152):
`existingPlan && existingPlan.assertions?.length`, evaluated on the raw
persisted JSON value (`none` models a missing or `null` argument). -/
def reusesExistingPlan (existingPlan : Option Json) : Bool :=
  match existingPlan with
  | none => false
  | some p =>
    jsTruthy p &&
      (match jsonGet p "assertions" with
       | none => false
       | some a =>
         match jsLengthProp a with
         | none => false
         | some l => jsTruthy l)

/-- Validity of one assertion item under
`z.union([z.string(), z.object({type: z.literal('url'), value: z.string()})])`. -/
def isValidAssertionItemJson (j : Json) : Bool :=
  match j with
  | .str _ => true
  | _ =>
    (match jsonGet j "type" with
     | some (.str t) => t = "url"
     | _ => false) &&
    (match jsonGet j "value" with
     | some (.str _) => true
     | _ => false)

/-- Validity of a plan value under `AssertionPlanSchema`
(`z.object({summary: z.string(), assertions: z.array(item).min(1)})`). -/
def isValidAssertionPlanJson (j : Json) : Bool :=
  (match j with | .obj _ => true | _ => false) &&
  (match jsonGet j "summary" with
   | some (.str _) => true
   | _ => false) &&
  (match jsonGet j "assertions" with
   | some (.arr items) => !items.isEmpty && items.all isValidAssertionItemJson
   | _ => false)

/-- Plan selection in `verifyExpectedResultWithAI`: reuse the persisted plan
when the reuse condition holds, otherwise take the fresh plan requested from
the AI planner (`planned` stands for the planner's output). -/
def selectAssertionPlan (existingPlan : Option Json) (planned : Json) : Json :=
  if reusesExistingPlan existingPlan then existingPlan.getD planned
  else planned

/-! ## Action capture de-duplication (`src/recorder/actionRecorder.ts`) -/

/-- Element info captured with a page event. -/
structure RecordedElement where
  tag : String
  text : Option String
  placeholder : Option String
  label : Option String
  id : Option String
  className : Option String
  deriving Repr, DecidableEq

/-- A captured page event as drained by the poller (`RecordedAction`);
`timestamp` is the epoch-milliseconds value set page-side. -/
structure RecordedAction where
  timestamp : Int
  type : String
  description : String
  element : Option RecordedElement
  value : Option String
  url : Option String
  selector : Option String
  deriving Repr, DecidableEq

/-- Model of `recordAction` (lines 574-590): a polled event whose type and
description both equal those of the last recorded action, and for which
`Date.now()` is less than 500ms past that action's timestamp, is dropped;
otherwise it is appended. `now` is the value of `Date.now()` at the check. -/
def recordAction (now : Int) (actions : List RecordedAction)
    (action : RecordedAction) : List RecordedAction :=
  match actions.getLast? with
  | some lastAction =>
    if action.type == lastAction.type && action.description == lastAction.description
        && decide (now - lastAction.timestamp < 500) then
      actions
    else actions ++ [action]
  | none => actions ++ [action]

/-! ## Concurrency scheduler (`src/index.ts` main, lines 423-539) -/

/-- Effective concurrency cap: `--record-api` forces 1, otherwise the
configured value when positive, else the default 5; finally capped by the
number of pending cases (`Math.min`). -/
def effectiveMaxConcurrency (recordApi : Bool) (maxConcurrency : Option Int)
    (numCases : Nat) : Nat :=
  let raw : Int :=
    if recordApi then 1
    else match maxConcurrency with
      | some m => if m > 0 then m else 5
      | none => 5
  min raw.toNat numCases

/-- Outcome of running one case through its own executor: the case either
completes with a passed or failed result, or its execution throws. -/
inductive CaseOutcome where
  | passed : CaseOutcome
  | failed : CaseOutcome
  | threw : CaseOutcome
  deriving Repr, DecidableEq

/-- The batching loop `for (i = 0; i < cases.length; i += cap)` realised on
lists; the fuel equals the list length, which suffices for any positive
cap. -/
def chunkBatchesGo {α : Type} (cap : Nat) : Nat → List α → List (List α)
  | 0, _ => []
  | _, [] => []
  | fuel + 1, l => l.take cap :: chunkBatchesGo cap fuel (l.drop cap)

/-- The batches `cases.slice(i, i + cap)` taken by the scheduler. -/
def chunkBatches {α : Type} (cap : Nat) (l : List α) : List (List α) :=
  chunkBatchesGo cap l.length l

/-- Per-batch execution with unconditional teardown: every case in a batch
closes its own browser session, on the success path and on the throw path
alike; a throw then escapes `Promise.all` and the surrounding `await`, so no
later batch starts. Returns the cases whose session close ran, in order. -/
def runBatchesCloses {α : Type} (outcome : α → CaseOutcome) : List (List α) → List α
  | [] => []
  | b :: rest =>
    b ++ (if b.any (fun c => outcome c == .threw) then [] else runBatchesCloses outcome rest)

/-- The scheduler: chunk the pending cases by the concurrency cap and run
the batches in order. -/
def schedulerCloses {α : Type} (outcome : α → CaseOutcome) (cases : List α) (cap : Nat) : List α :=
  runBatchesCloses outcome (chunkBatches cap cases)

/-! ## Properties of the store merge -/

/-- The accumulation rule yields `true` exactly when the current or the
previous value is `true`; in particular a later `false` never overwrites an
earlier `true`. -/
lemma mergeWaitFlag_eq_true_iff :
    ∀ current prev : Option Bool,
      mergeWaitFlag current prev = some true ↔ (current = some true ∨ prev = some true) := by
  decide

/-- On two defined flags the accumulation rule is exactly boolean OR. -/
lemma mergeWaitFlag_or :
    ∀ a b : Bool, mergeWaitFlag (some a) (some b) = some (b || a) := by
  decide

/-- C1. Merging a run's `StepResult` at step index `i` into the store via
`saveTestResults` accumulates the wait flags monotonically: the persisted
`pageLoadWaitTimedOut` is `true` exactly when it was `true` in the previously
persisted step or in the current run's step (so a later `false` never
overwrites an earlier `true`), and the persisted `pageLoadWaitAttempted` is
the logical OR of the previously persisted value and the current run's value
whenever both are present; the merged entry is among the steps the store
writes for the case. -/
theorem saveTestResults_wait_flags_accumulate
    (prevResult : Option TestResultJson) (runSteps : List StepResult)
    (i : Nat) (s : StepResult) (act : ActResultJson)
    (hs : runSteps[i]? = some s) (ha : s.actResult = some act) :
    ∃ m : ActResultJson,
      persistStepResult (prevStepsOf prevResult) i s = some m ∧
      m ∈ saveStepsForCase prevResult runSteps ∧
      (m.pageLoadWaitTimedOut = some true ↔
        (s.pageLoadWaitTimedOut = some true ∨
          (prevStepsOf prevResult)[i]?.bind ActResultJson.pageLoadWaitTimedOut = some true)) ∧
      (∀ a b : Bool, s.pageLoadWaitAttempted = some a →
        (prevStepsOf prevResult)[i]?.bind ActResultJson.pageLoadWaitAttempted = some b →
        m.pageLoadWaitAttempted = some (b || a)) := by
  refine ⟨?_, ?_, ?_, ?_, ?_⟩
  · exact { act with
      pageLoadWaitAttempted := mergeWaitFlag s.pageLoadWaitAttempted
        ((prevStepsOf prevResult)[i]?.bind ActResultJson.pageLoadWaitAttempted)
      pageLoadWaitTimedOut := mergeWaitFlag s.pageLoadWaitTimedOut
        ((prevStepsOf prevResult)[i]?.bind ActResultJson.pageLoadWaitTimedOut) }
  · simp [persistStepResult, ha]
  · have hmem : (i, s) ∈ runSteps.enum := List.mk_mem_enum_iff_getElem?.mpr hs
    refine List.mem_filterMap.mpr ?_
    refine ⟨some { act with
      pageLoadWaitAttempted := mergeWaitFlag s.pageLoadWaitAttempted
        ((prevStepsOf prevResult)[i]?.bind ActResultJson.pageLoadWaitAttempted)
      pageLoadWaitTimedOut := mergeWaitFlag s.pageLoadWaitTimedOut
        ((prevStepsOf prevResult)[i]?.bind ActResultJson.pageLoadWaitTimedOut) }, ?_, rfl⟩
    have := List.mem_map_of_mem
      (fun p : Nat × StepResult => persistStepResult (prevStepsOf prevResult) p.1 p.2) hmem
    simpa [persistStepResult, ha] using this
  · simpa using mergeWaitFlag_eq_true_iff s.pageLoadWaitTimedOut
      ((prevStepsOf prevResult)[i]?.bind ActResultJson.pageLoadWaitTimedOut)
  · intro a b hcur hprev
    simp [hcur, hprev, mergeWaitFlag_or]

/-- A small concrete action used by the store-merge witnesses. -/
def sampleAction : ActionJson :=
  { selector := "#login", description := "click login", method := "click", arguments := [] }

/-- A previously persisted step whose wait once timed out. -/
def samplePrevStep : ActResultJson :=
  { success := true, message := "", actionDescription := "click login",
    actions := [sampleAction], pageLoadWaitAttempted := some false,
    pageLoadWaitTimedOut := some true }

/-- A previously persisted case result holding `samplePrevStep`. -/
def samplePrevResult : TestResultJson :=
  { status := .passed, steps := [samplePrevStep], actualResult := "ok", error := none,
    startTime := "2024-01-01T00:00:00.000Z", endTime := some "2024-01-01T00:00:01.000Z",
    duration := 1000, assertionPlan := none, tracePath := none, log := none }

/-- The current run's act result for the same step. -/
def sampleCurAct : ActResultJson :=
  { success := true, message := "", actionDescription := "click login",
    actions := [sampleAction], pageLoadWaitAttempted := none, pageLoadWaitTimedOut := none }

/-- The current run's step result: the wait ran and did not time out. -/
def sampleRunStep : StepResult :=
  { stepNumber := 1, description := "click login", status := .passed, error := none,
    actResult := some sampleCurAct, pageLoadWaitAttempted := some true,
    pageLoadWaitTimedOut := some false }

/-- Witness for C1 at a concrete input: the previous step's timeout is kept
even though the current run reports `timedOut = false`. -/
theorem saveTestResults_wait_flags_accumulate_witness :
    (([sampleRunStep] : List StepResult)[0]? = some sampleRunStep) ∧
    (sampleRunStep.actResult = some sampleCurAct) ∧
    (∃ m : ActResultJson,
      persistStepResult (prevStepsOf (some samplePrevResult)) 0 sampleRunStep = some m ∧
      m ∈ saveStepsForCase (some samplePrevResult) [sampleRunStep] ∧
      (m.pageLoadWaitTimedOut = some true ↔
        (sampleRunStep.pageLoadWaitTimedOut = some true ∨
          (prevStepsOf (some samplePrevResult))[0]?.bind ActResultJson.pageLoadWaitTimedOut
            = some true)) ∧
      (∀ a b : Bool, sampleRunStep.pageLoadWaitAttempted = some a →
        (prevStepsOf (some samplePrevResult))[0]?.bind ActResultJson.pageLoadWaitAttempted
          = some b →
        m.pageLoadWaitAttempted = some (b || a))) :=
  ⟨rfl, rfl, saveTestResults_wait_flags_accumulate (some samplePrevResult) [sampleRunStep]
    0 sampleRunStep sampleCurAct rfl rfl⟩

/-- C4. If a run contributes zero persistable step results for a case while
the store holds a non-empty `result.steps` for it, `saveTestResults` keeps
the previously persisted steps unchanged. -/
theorem saveTestResults_preserves_prior_steps
    (data : DataFile) (results : List TestResult) (stats : TestStatistics) (now : String)
    (k : Nat) (tc : TestCaseJson) (r : TestResult) (pr : TestResultJson)
    (htc : data.testCases[k]? = some tc)
    (hr : mapLookup (results.map fun x => (x.id, x)) tc.id = some r)
    (hpr : (mapLookup (data.testCases.map fun c => (c.id, c)) tc.id).bind TestCaseJson.result
      = some pr)
    (hempty : saveStepsForCase (some pr) r.steps = [])
    (hnon : pr.steps ≠ []) :
    ∃ tc2 : TestCaseJson,
      (saveTestResults data results stats now).testCases[k]? = some tc2 ∧
      tc2.result.map TestResultJson.steps = some pr.steps := by
  refine ⟨{ tc with result := some (toResultJson r (some pr)) }, ?_, ?_⟩
  · simp [saveTestResults, List.getElem?_map, htc, hr, hpr]
  · simp [toResultJson, stepsToWrite, hempty, prevStepsOf, List.length_pos, hnon]

/-- A persisted case for the C4 witness, holding one prior step. -/
def sampleDataCase : TestCaseJson :=
  { id := "TC-1", name := "login", url := "https://x/login", steps := ["click login"],
    expectedResult := "redirect", description := "", apiUrls := none,
    validateApiUrls := none, apiRecords := none, result := some samplePrevResult }

/-- A one-case data file for the C4 witness. -/
def sampleDataFile : DataFile :=
  { sourceFile := "test-cases.xlsx", testCases := [sampleDataCase], statistics := none,
    lastRun := none, apiRecords := none, apiUrlMapping := none }

/-- A run of `TC-1` that produced zero step results. -/
def sampleEmptyRun : TestResult :=
  { id := "TC-1", name := "login", url := "https://x/login", status := .failed,
    steps := [], expectedResult := "redirect", actualResult := "", error := some "回放操作失败",
    startTime := "2024-01-02T00:00:00.000Z", endTime := none, duration := 0,
    skipPageLoadWait := none, assertionPlan := none, tracePath := none, log := none }

/-- Statistics of the empty run, for the C4 witness. -/
def sampleStats : TestStatistics :=
  { total := 1, passed := 0, failed := 1, passRate := "0.00%",
    totalDuration := "0ms", averageDuration := "0.00ms" }

/-- Witness for C4 at a concrete input: merging the empty run leaves the
previously persisted non-empty steps in place. -/
theorem saveTestResults_preserves_prior_steps_witness :
    (sampleDataFile.testCases[0]? = some sampleDataCase) ∧
    (mapLookup ([sampleEmptyRun].map fun x => (x.id, x)) sampleDataCase.id
      = some sampleEmptyRun) ∧
    ((mapLookup (sampleDataFile.testCases.map fun c => (c.id, c)) sampleDataCase.id).bind
      TestCaseJson.result = some samplePrevResult) ∧
    (saveStepsForCase (some samplePrevResult) sampleEmptyRun.steps = []) ∧
    (samplePrevResult.steps ≠ []) ∧
    (∃ tc2 : TestCaseJson,
      (saveTestResults sampleDataFile [sampleEmptyRun] sampleStats
        "2024-01-02T00:00:01.000Z").testCases[0]? = some tc2 ∧
      tc2.result.map TestResultJson.steps = some samplePrevResult.steps) :=
  ⟨rfl, rfl, rfl, rfl, by decide,
    saveTestResults_preserves_prior_steps sampleDataFile [sampleEmptyRun] sampleStats
      "2024-01-02T00:00:01.000Z" 0 sampleDataCase sampleEmptyRun samplePrevResult
      rfl rfl rfl rfl (by decide)⟩

/-! ## Properties of the execution loop -/

/-- The act phase never reads the wait environment. -/
lemma runActPhase_wait_irrelevant (env : StepEnv) (w : PageWaitEnv) (t : String)
    (sh : Option ActResultJson) :
    runActPhase { env with wait := w } t sh = runActPhase env t sh := rfl

/-- The planner-call count of a step is the one of its act phase. -/
lemma execStep_calls (env : StepEnv) (i : Nat) (t : String) (sh : Option ActResultJson) :
    (execStep env i t sh).2 = (runActPhase env t sh).2 := by
  rcases hM : runActPhase env t sh with ⟨e, c⟩
  cases e <;> simp [execStep, hM]

/-- A step with recorded actions makes no planner call. -/
lemma runActPhase_calls_of_recorded (env : StepEnv) (t : String)
    (sh : Option ActResultJson) (h : hasRecordedActions sh = true) :
    (runActPhase env t sh).2 = 0 := by
  unfold runActPhase
  rw [if_pos h]
  cases sh with
  | none => rfl
  | some hist =>
    cases hR : runReplayActions env.replayAct 0 hist.actions <;> simp [hR]

/-- C2. A step whose persisted history carries `pageLoadWaitTimedOut = true`
skips the page-settle wait entirely — its outcome does not depend on the
wait environment — and, when it completes, records
`pageLoadWaitAttempted = false` and `pageLoadWaitTimedOut = false`; a step
whose history lacks that flag performs the bounded wait and records the
wait's flags. -/
theorem executeTestCase_sticky_wait_skip (env : StepEnv) (i : Nat) (stepText : String) :
    (∀ h : ActResultJson, h.pageLoadWaitTimedOut = some true →
      (∀ w : PageWaitEnv,
        execStep { env with wait := w } i stepText (some h) = execStep env i stepText (some h)) ∧
      (∀ res : StepResult, (execStep env i stepText (some h)).1 = .ok res →
        res.pageLoadWaitAttempted = some false ∧ res.pageLoadWaitTimedOut = some false)) ∧
    (∀ stepHistory : Option ActResultJson,
      stepHistory.bind ActResultJson.pageLoadWaitTimedOut ≠ some true →
      ∀ res : StepResult, (execStep env i stepText stepHistory).1 = .ok res →
        res.pageLoadWaitAttempted
          = some (TestExecutorTs.waitForPageLoadIfUrlChanged env.wait env.urlBeforeAct).attempted ∧
        res.pageLoadWaitTimedOut
          = some (TestExecutorTs.waitForPageLoadIfUrlChanged env.wait env.urlBeforeAct).timedOut) := by
  constructor
  · intro h ht
    constructor
    · intro w
      unfold execStep
      rw [runActPhase_wait_irrelevant]
      rcases hM : runActPhase env stepText (some h) with ⟨e, c⟩
      cases e <;> simp [ht]
    · intro res hres
      rcases hM : runActPhase env stepText (some h) with ⟨e, c⟩
      cases e with
      | error m => simp [execStep, hM] at hres
      | ok actRes =>
        simp [execStep, hM, ht] at hres
        rw [← hres]
        exact ⟨rfl, rfl⟩
  · intro stepHistory hne res hres
    cases stepHistory with
    | none =>
      rcases hM : runActPhase env stepText none with ⟨e, c⟩
      cases e with
      | error m => simp [execStep, hM] at hres
      | ok actRes =>
        simp [execStep, hM] at hres
        rw [← hres]
        exact ⟨rfl, rfl⟩
    | some h =>
      have ht : h.pageLoadWaitTimedOut ≠ some true := by simpa using hne
      rcases hM : runActPhase env stepText (some h) with ⟨e, c⟩
      cases e with
      | error m => simp [execStep, hM] at hres
      | ok actRes =>
        simp [execStep, hM, ht] at hres
        rw [← hres]
        exact ⟨rfl, rfl⟩

/-- A sample wait environment: page present, no timeout, URL changed. -/
def sampleWaitEnv : PageWaitEnv :=
  { pagePresent := true, networkidleTimedOut := false, urlAfterLoad := "https://x/dashboard" }

/-- An alternative wait environment, used to witness wait independence. -/
def sampleAltWaitEnv : PageWaitEnv :=
  { pagePresent := false, networkidleTimedOut := true, urlAfterLoad := "https://x/login" }

/-- A raw action as a planner would return it. -/
def sampleRawAction : RawAction :=
  { selector := some "#login", description := some "click login",
    method := some "click", arguments := some [] }

/-- A step environment where both the plan path and the replay path
succeed. -/
def sampleStepEnv : StepEnv :=
  { urlBeforeAct := "https://x/login"
    planAct := .ok (.obj (some true) (some "") none (some "click login") (some [sampleRawAction]))
    replayAct := fun _ => .ok (.obj (some true) none none none none)
    wait := sampleWaitEnv }

/-- Witness for C2 at concrete inputs: the step with a timed-out history
records `false/false` independently of the wait environment, and the step
without history records the wait's own flags. -/
theorem executeTestCase_sticky_wait_skip_witness :
    (samplePrevStep.pageLoadWaitTimedOut = some true) ∧
    (execStep { sampleStepEnv with wait := sampleAltWaitEnv } 0 "click login" (some samplePrevStep)
      = execStep sampleStepEnv 0 "click login" (some samplePrevStep)) ∧
    (∀ res : StepResult,
      (execStep sampleStepEnv 0 "click login" (some samplePrevStep)).1 = .ok res →
      res.pageLoadWaitAttempted = some false ∧ res.pageLoadWaitTimedOut = some false) ∧
    ((Option.none.bind ActResultJson.pageLoadWaitTimedOut ≠ some true) ∧
      ∀ res : StepResult, (execStep sampleStepEnv 0 "click login" none).1 = .ok res →
        res.pageLoadWaitAttempted
          = some (TestExecutorTs.waitForPageLoadIfUrlChanged sampleStepEnv.wait
              sampleStepEnv.urlBeforeAct).attempted ∧
        res.pageLoadWaitTimedOut
          = some (TestExecutorTs.waitForPageLoadIfUrlChanged sampleStepEnv.wait
              sampleStepEnv.urlBeforeAct).timedOut) :=
  ⟨rfl,
    ((executeTestCase_sticky_wait_skip sampleStepEnv 0 "click login").1
      samplePrevStep rfl).1 sampleAltWaitEnv,
    ((executeTestCase_sticky_wait_skip sampleStepEnv 0 "click login").1
      samplePrevStep rfl).2,
    ⟨by simp,
      (executeTestCase_sticky_wait_skip sampleStepEnv 0 "click login").2 none (by simp)⟩⟩

/-- Planner-call count of the loop tail: zero as long as every visited index
has recorded actions. -/
lemma execStepsFrom_plannerCalls_zero (envs : Nat → StepEnv) (hs : List ActResultJson) :
    ∀ (steps : List String) (start : Nat),
      (∀ k, k < steps.length → hasRecordedActions hs[start + k]? = true) →
      (execStepsFrom envs (some hs) start steps).plannerCalls = 0 := by
  intro steps
  induction steps with
  | nil => intro start _; rfl
  | cons stepText rest ih =>
    intro start hrec
    have h0 : hasRecordedActions hs[start]? = true := by
      simpa using hrec 0 (by simp)
    have hcalls : (execStep (envs start) start stepText hs[start]?).2 = 0 := by
      rw [execStep_calls]
      exact runActPhase_calls_of_recorded _ _ _ h0
    have htail : (execStepsFrom envs (some hs) (start + 1) rest).plannerCalls = 0 := by
      refine ih (start + 1) ?_
      intro k hk
      have := hrec (k + 1) (by simpa using Nat.succ_lt_succ hk)
      simpa [Nat.add_assoc, Nat.add_comm 1 k] using this
    unfold execStepsFrom
    rcases hM : execStep (envs start) start stepText hs[start]? with ⟨e, c⟩
    rw [hM] at hcalls
    have hc : c = 0 := by simpa using hcalls
    cases e <;> simp [hM, hc, htail]

/-- C3. For a case whose history holds a non-empty cached action list for
every step, the decision condition selects the replay path at every index
and the execution makes zero AI planner calls. -/
theorem full_history_replays_with_zero_planner_calls
    (envs : Nat → StepEnv) (steps : List String) (hs : List ActResultJson)
    (hfull : ∀ i, i < steps.length → ∃ h : ActResultJson, hs[i]? = some h ∧ h.actions ≠ []) :
    (∀ i, i < steps.length → hasRecordedActions ((some hs).bind fun l => l[i]?) = true) ∧
    (execSteps envs steps (some hs)).plannerCalls = 0 := by
  have hrec : ∀ i, i < steps.length → hasRecordedActions hs[i]? = true := by
    intro i hi
    obtain ⟨h, hh, hne⟩ := hfull i hi
    have : h.actions.length ≠ 0 := by
      simpa [List.length_eq_zero] using hne
    simp [hasRecordedActions, hh, this]
  refine ⟨fun i hi => by simpa using hrec i hi, ?_⟩
  have := execStepsFrom_plannerCalls_zero envs hs steps 0 (fun k hk => by simpa using hrec k hk)
  simpa [execSteps] using this

/-- Witness for C3 at a concrete input: a one-step case with full history
makes zero planner calls. -/
theorem full_history_replays_with_zero_planner_calls_witness :
    (∀ i, i < (["click login"] : List String).length →
      ∃ h : ActResultJson, ([samplePrevStep] : List ActResultJson)[i]? = some h ∧ h.actions ≠ []) ∧
    ((∀ i, i < (["click login"] : List String).length →
      hasRecordedActions ((some [samplePrevStep]).bind fun l => l[i]?) = true) ∧
     (execSteps (fun _ => sampleStepEnv) ["click login"] (some [samplePrevStep])).plannerCalls
       = 0) := by
  have hfull : ∀ i, i < (["click login"] : List String).length →
      ∃ h : ActResultJson, ([samplePrevStep] : List ActResultJson)[i]? = some h ∧ h.actions ≠ [] := by
    intro i hi
    have : i = 0 := by simpa using Nat.lt_one_iff.mp (by simpa using hi)
    subst this
    exact ⟨samplePrevStep, rfl, by decide⟩
  exact ⟨hfull,
    full_history_replays_with_zero_planner_calls (fun _ => sampleStepEnv)
      ["click login"] [samplePrevStep] hfull⟩

/-- A failed `execStep` carries a failed status and an error message. -/
lemma execStep_error_fields (env : StepEnv) (i : Nat) (t : String)
    (sh : Option ActResultJson) (f : StepResult)
    (hf : (execStep env i t sh).1 = .error f) :
    f.status = .failed ∧ f.error ≠ none := by
  rcases hM : runActPhase env t sh with ⟨e, c⟩
  cases e with
  | error m =>
    simp [execStep, hM] at hf
    rw [← hf]
    exact ⟨rfl, by simp⟩
  | ok actRes => simp [execStep, hM] at hf

/-- A successful `execStep` carries a passed status. -/
lemma execStep_ok_status (env : StepEnv) (i : Nat) (t : String)
    (sh : Option ActResultJson) (r : StepResult)
    (hr : (execStep env i t sh).1 = .ok r) : r.status = .passed := by
  rcases hM : runActPhase env t sh with ⟨e, c⟩
  cases e with
  | error m => simp [execStep, hM] at hr
  | ok actRes =>
    simp [execStep, hM] at hr
    rw [← hr]

/-- Every pushed step of the loop tail has passed. -/
lemma execStepsFrom_steps_passed (envs : Nat → StepEnv)
    (hist : Option (List ActResultJson)) :
    ∀ (steps : List String) (start : Nat) (s : StepResult),
      s ∈ (execStepsFrom envs hist start steps).steps → s.status = .passed := by
  intro steps
  induction steps with
  | nil => intro start s hmem; simp [execStepsFrom] at hmem
  | cons stepText rest ih =>
    intro start s hmem
    unfold execStepsFrom at hmem
    rcases hM : execStep (envs start) start stepText (hist.bind fun l => l[start]?)
      with ⟨e, c⟩
    rw [hM] at hmem
    cases e with
    | error f => simp at hmem
    | ok passed =>
      simp only at hmem
      rcases List.mem_cons.mp hmem with h | h
      · subst h
        exact execStep_ok_status (envs start) start stepText
          (hist.bind fun l => l[start]?) s (by rw [hM])
      · exact ih (start + 1) s h

/-- The failure carried out of the loop tail has failed status and an
error message. -/
lemma execStepsFrom_failure_fields (envs : Nat → StepEnv)
    (hist : Option (List ActResultJson)) :
    ∀ (steps : List String) (start : Nat) (f : StepResult),
      (execStepsFrom envs hist start steps).failure = some f →
      f.status = .failed ∧ f.error ≠ none := by
  intro steps
  induction steps with
  | nil => intro start f hf; simp [execStepsFrom] at hf
  | cons stepText rest ih =>
    intro start f hf
    unfold execStepsFrom at hf
    rcases hM : execStep (envs start) start stepText (hist.bind fun l => l[start]?)
      with ⟨e, c⟩
    rw [hM] at hf
    cases e with
    | error failed =>
      have : failed = f := by simpa using hf
      subst this
      exact execStep_error_fields (envs start) start stepText
        (hist.bind fun l => l[start]?) failed (by rw [hM])
    | ok passed =>
      simp only at hf
      exact ih (start + 1) f hf

/-- C10. The failing step's result is never appended to the case's steps:
every pushed step has passed, and the failure (status `failed`, error set)
is only reported through the rethrown error, never through the steps list. -/
theorem failing_step_never_pushed (envs : Nat → StepEnv) (steps : List String)
    (hist : Option (List ActResultJson)) :
    (∀ s ∈ (execSteps envs steps hist).steps, s.status = .passed) ∧
    (∀ f : StepResult, (execSteps envs steps hist).failure = some f →
      f.status = .failed ∧ f.error ≠ none ∧ f ∉ (execSteps envs steps hist).steps) := by
  constructor
  · intro s hs
    exact execStepsFrom_steps_passed envs hist steps 0 s hs
  · intro f hf
    obtain ⟨hstat, herr⟩ := execStepsFrom_failure_fields envs hist steps 0 f hf
    refine ⟨hstat, herr, ?_⟩
    intro hmem
    have := execStepsFrom_steps_passed envs hist steps 0 f hmem
    rw [hstat] at this
    exact Status.noConfusion this

/-- A step environment whose plan path rejects. -/
def sampleFailEnv : StepEnv :=
  { urlBeforeAct := "https://x/dashboard"
    planAct := .error "page.act: Timeout 30000ms exceeded."
    replayAct := fun _ => .error "page.act: Timeout 30000ms exceeded."
    wait := sampleWaitEnv }

/-- Per-step environments for the C10 witness: step 0 succeeds, step 1
throws on the plan path. -/
def sampleMixedEnvs : Nat → StepEnv :=
  fun i => if i = 0 then sampleStepEnv else sampleFailEnv

/-- The failing step result produced by the C10 witness run. -/
def sampleFailedStep : StepResult :=
  { stepNumber := 2, description := "open dashboard", status := .failed,
    error := some "page.act: Timeout 30000ms exceeded.", actResult := none,
    pageLoadWaitAttempted := none, pageLoadWaitTimedOut := none }

/-- Witness for C10 at a concrete input: a two-step case whose second step
throws pushes only the first step and reports the failure separately. -/
theorem failing_step_never_pushed_witness :
    (∃ f : StepResult,
      (execSteps sampleMixedEnvs ["click login", "open dashboard"]
        (some [samplePrevStep])).failure = some f ∧
      f.status = .failed ∧ f.error ≠ none ∧
      f ∉ (execSteps sampleMixedEnvs ["click login", "open dashboard"]
        (some [samplePrevStep])).steps) ∧
    (∀ s ∈ (execSteps sampleMixedEnvs ["click login", "open dashboard"]
        (some [samplePrevStep])).steps, s.status = .passed) := by
  obtain ⟨hpassed, hfail⟩ :=
    failing_step_never_pushed sampleMixedEnvs ["click login", "open dashboard"]
      (some [samplePrevStep])
  refine ⟨⟨sampleFailedStep, ?_, ?_⟩, hpassed⟩
  · rfl
  · exact hfail _ rfl

/-! ## Properties of the page-settle wait -/

/-- A wait environment where the page is present, the networkidle wait
succeeds, and the URL is unchanged from before the act. -/
def settledUnchangedUrlEnv : PageWaitEnv :=
  { pagePresent := true, networkidleTimedOut := false, urlAfterLoad := "https://x/login" }

/-- C5 counterexample: with the networkidle wait succeeding and the URL
unchanged, the modular page-settle wait still records `timedOut = true`,
contradicting the claim that `timedOut = true` is recorded only when the
networkidle wait itself timed out. -/
theorem pageLoadWait_unchanged_url_counterexample :
    settledUnchangedUrlEnv.networkidleTimedOut = false ∧
    settledUnchangedUrlEnv.urlAfterLoad = "https://x/login" ∧
    (PageLoadWaitTs.waitForPageLoadIfUrlChanged settledUnchangedUrlEnv
      "https://x/login").attempted = true ∧
    (PageLoadWaitTs.waitForPageLoadIfUrlChanged settledUnchangedUrlEnv
      "https://x/login").timedOut = true := by
  refine ⟨rfl, rfl, ?_, ?_⟩ <;> decide

/-- C5 (amended). With a page present, both page-settle waits record the
attempt; the monolithic executor's wait records `timedOut = true` exactly
when the networkidle wait timed out, while the modular `pageLoadWait` helper
records `timedOut = true` exactly when the networkidle wait timed out or the
URL is unchanged after the wait. -/
theorem waitForPageLoad_records_attempt
    (env : PageWaitEnv) (urlBeforeAct : String) (hp : env.pagePresent = true) :
    ((TestExecutorTs.waitForPageLoadIfUrlChanged env urlBeforeAct).attempted = true ∧
      ((TestExecutorTs.waitForPageLoadIfUrlChanged env urlBeforeAct).timedOut = true ↔
        env.networkidleTimedOut = true)) ∧
    ((PageLoadWaitTs.waitForPageLoadIfUrlChanged env urlBeforeAct).attempted = true ∧
      ((PageLoadWaitTs.waitForPageLoadIfUrlChanged env urlBeforeAct).timedOut = true ↔
        (env.networkidleTimedOut = true ∨ env.urlAfterLoad = urlBeforeAct))) := by
  by_cases hu : env.urlAfterLoad = urlBeforeAct <;>
    simp [TestExecutorTs.waitForPageLoadIfUrlChanged,
      PageLoadWaitTs.waitForPageLoadIfUrlChanged, hp, hu]

/-- Witness for the amended C5 at a concrete input: page present, URL
changed, no timeout. -/
theorem waitForPageLoad_records_attempt_witness :
    (sampleWaitEnv.pagePresent = true) ∧
    (((TestExecutorTs.waitForPageLoadIfUrlChanged sampleWaitEnv "https://x/login").attempted
        = true ∧
      ((TestExecutorTs.waitForPageLoadIfUrlChanged sampleWaitEnv "https://x/login").timedOut
          = true ↔ sampleWaitEnv.networkidleTimedOut = true)) ∧
     ((PageLoadWaitTs.waitForPageLoadIfUrlChanged sampleWaitEnv "https://x/login").attempted
        = true ∧
      ((PageLoadWaitTs.waitForPageLoadIfUrlChanged sampleWaitEnv "https://x/login").timedOut
          = true ↔
        (sampleWaitEnv.networkidleTimedOut = true ∨
          sampleWaitEnv.urlAfterLoad = "https://x/login")))) :=
  ⟨rfl, waitForPageLoad_records_attempt sampleWaitEnv "https://x/login" rfl⟩

/-! ## Properties of assertion-plan reuse and execution -/

/-- A persisted plan whose `summary` is a number: schema-invalid, yet its
`assertions` list is non-empty. -/
def invalidReusedPlan : Json :=
  .obj [("summary", .num 1), ("assertions", .arr [.str "find the submit button"])]

/-- C6 counterexample: a schema-invalid persisted plan passes the reuse
condition, so it is reused verbatim instead of triggering re-planning; no
schema re-validation happens before reuse. -/
theorem plan_reuse_skips_schema_counterexample :
    reusesExistingPlan (some invalidReusedPlan) = true ∧
    isValidAssertionPlanJson invalidReusedPlan = false ∧
    selectAssertionPlan (some invalidReusedPlan) (.obj []) = invalidReusedPlan :=
  ⟨rfl, rfl, rfl⟩

/-- C6 (amended). Before a persisted plan is reused, the only check is
JavaScript truthiness of the plan together with a truthy
`assertions?.length`; when that check fails a fresh plan from the planner is
used instead, and when it succeeds the persisted plan is reused verbatim
without schema re-validation. -/
theorem plan_reuse_checks_only_nonempty_assertions
    (existingPlan : Option Json) (planned : Json) :
    (reusesExistingPlan existingPlan = true ↔
      ∃ p, existingPlan = some p ∧ jsTruthy p = true ∧
        ∃ a, jsonGet p "assertions" = some a ∧
          ∃ l, jsLengthProp a = some l ∧ jsTruthy l = true) ∧
    (reusesExistingPlan existingPlan = false →
      selectAssertionPlan existingPlan planned = planned) ∧
    (∀ p, existingPlan = some p → reusesExistingPlan existingPlan = true →
      selectAssertionPlan existingPlan planned = p) := by
  refine ⟨?_, ?_, ?_⟩
  · cases existingPlan with
    | none => simp [reusesExistingPlan]
    | some p =>
      cases hg : jsonGet p "assertions" with
      | none => simp [reusesExistingPlan, hg]
      | some a =>
        cases hl : jsLengthProp a with
        | none => simp [reusesExistingPlan, hg, hl]
        | some l => simp [reusesExistingPlan, hg, hl, Bool.and_eq_true]
  · intro h
    simp [selectAssertionPlan, h]
  · intro p hp h
    subst hp
    simp [selectAssertionPlan, h]

/-- A schema-valid persisted plan with one URL assertion. -/
def validReusedPlan : Json :=
  .obj [("summary", .str "检查跳转"),
        ("assertions", .arr [.obj [("type", .str "url"), ("value", .str "/dashboard")]])]

/-- Witness for the amended C6 at concrete inputs: a missing plan triggers
re-planning and a plan with a non-empty assertions list is reused. -/
theorem plan_reuse_checks_only_nonempty_assertions_witness :
    (reusesExistingPlan none = false) ∧
    (selectAssertionPlan none (.obj []) = .obj []) ∧
    (reusesExistingPlan (some validReusedPlan) = true) ∧
    (selectAssertionPlan (some validReusedPlan) (.obj []) = validReusedPlan) :=
  ⟨rfl,
    (plan_reuse_checks_only_nonempty_assertions none (.obj [])).2.1 rfl,
    rfl,
    (plan_reuse_checks_only_nonempty_assertions (some validReusedPlan) (.obj [])).2.2
      validReusedPlan rfl rfl⟩

/-- Starting with itself succeeds. -/
lemma listStartsWith_refl : ∀ l : List Char, listStartsWith l l = true := by
  intro l
  induction l with
  | nil => rfl
  | cons c cs ih => simp [listStartsWith, ih]

/-- A list contains its own suffix as a contiguous run. -/
lemma listContainsSub_append (b : List Char) :
    ∀ a : List Char, listContainsSub b (a ++ b) = true := by
  intro a
  induction a with
  | nil =>
    cases b with
    | nil => rfl
    | cons c cs => simp [listContainsSub, listStartsWith_refl]
  | cons c cs ih => simp [listContainsSub, ih]

/-- A string contains its own suffix as a substring. -/
lemma jsIncludes_append (x y : String) : jsIncludes (x ++ y) y = true := by
  unfold jsIncludes
  have h : (x ++ y).toList = x.toList ++ y.toList := by
    simp [String.toList]
  rw [h]
  exact listContainsSub_append _ _

/-- C7. A URL assertion item passes exactly when the current page URL
contains the item's value as a substring, and its failure message contains
the actual URL; an observation item fails exactly when the observe
capability returns zero matches; the first failing item aborts the plan
immediately with that failure. -/
theorem runAssertionPlan_url_substring_and_observe
    (env : AssertEnv) (idx : Nat) (value text : String)
    (item : AssertionItem) (rest : List AssertionItem) :
    ((∃ line, runAssertionItem env idx (.url value) = .ok line) ↔
      jsIncludes env.pageUrl value = true) ∧
    (∀ m, runAssertionItem env idx (.url value) = .error m →
      jsIncludes m env.pageUrl = true) ∧
    ((∃ m, runAssertionItem env idx (.obs text) = .error m) ↔ env.observe text = []) ∧
    (∀ m, runAssertionItem env idx item = .error m →
      runAssertionItems env idx (item :: rest) = .error m) := by
  refine ⟨?_, ?_, ?_, ?_⟩
  · cases hinc : jsIncludes env.pageUrl value <;> simp [runAssertionItem, hinc]
  · intro m hm
    cases hinc : jsIncludes env.pageUrl value
    · simp [runAssertionItem, hinc] at hm
      rw [← hm]
      exact jsIncludes_append _ _
    · simp [runAssertionItem, hinc] at hm
  · cases hobs : env.observe text <;> simp [runAssertionItem, hobs]
  · intro m hm
    simp [runAssertionItems, hm]

/-- The assertion environment of the C7 witness: a dashboard URL and an
observe capability that finds nothing. -/
def sampleAssertEnv : AssertEnv :=
  { pageUrl := "https://x/dashboard?tab=1", observe := fun _ => [] }

/-- Witness for C7 at concrete inputs: a passing URL item, a failing URL
item whose message carries the actual URL, a failing observation item, and
the immediate abort. -/
theorem runAssertionPlan_url_substring_and_observe_witness :
    (jsIncludes sampleAssertEnv.pageUrl "/dashboard" = true) ∧
    (∃ line, runAssertionItem sampleAssertEnv 0 (.url "/dashboard") = .ok line) ∧
    (runAssertionItem sampleAssertEnv 0 (.url "/settings")
      = .error "断言 #1 未通过: URL 不包含 \"/settings\"，当前: https://x/dashboard?tab=1") ∧
    (jsIncludes "断言 #1 未通过: URL 不包含 \"/settings\"，当前: https://x/dashboard?tab=1"
      sampleAssertEnv.pageUrl = true) ∧
    (∃ m, runAssertionItem sampleAssertEnv 0 (.obs "find the logout button") = .error m) ∧
    (runAssertionItems sampleAssertEnv 0
        (AssertionItem.obs "find the logout button" :: [AssertionItem.url "/dashboard"])
      = .error "断言 #1 未通过: 未找到「find the logout button」") :=
  ⟨rfl,
    (runAssertionPlan_url_substring_and_observe sampleAssertEnv 0 "/dashboard" ""
      (.url "/dashboard") []).1.mpr rfl,
    rfl,
    (runAssertionPlan_url_substring_and_observe sampleAssertEnv 0 "/settings" ""
      (.url "/settings") []).2.1 _ rfl,
    (runAssertionPlan_url_substring_and_observe sampleAssertEnv 0 "" "find the logout button"
      (.obs "find the logout button") []).2.2.1.mpr rfl,
    (runAssertionPlan_url_substring_and_observe sampleAssertEnv 0 "" "find the logout button"
      (.obs "find the logout button") [.url "/dashboard"]).2.2.2 _ rfl⟩

/-! ## Properties of the scheduler -/

/-- C8 counterexample: with cap 2 and 5 pending cases, an execution where
case 0 throws stops after the first batch, so only 2 close calls happen —
not 5 as the claim states for the thrown outcome. -/
theorem scheduler_close_calls_counterexample :
    effectiveMaxConcurrency false (some 2) 5 = 2 ∧
    (chunkBatches 2 [0, 1, 2, 3, 4]).map List.length = [2, 2, 1] ∧
    (schedulerCloses (fun c => if c = 0 then CaseOutcome.threw else CaseOutcome.passed)
      [0, 1, 2, 3, 4] 2).length = 2 := by
  refine ⟨?_, ?_, ?_⟩ <;> decide

/-- Empty input produces no batches at any fuel. -/
lemma chunkBatchesGo_nil {α : Type} (cap fuel : Nat) :
    chunkBatchesGo (α := α) cap fuel [] = [] := by
  cases fuel <;> rfl

/-- The ceiling-division step used in counting batches. -/
lemma ceilDiv_step (cap : Nat) (hcap : 0 < cap) :
    ∀ n : Nat, 1 ≤ n → (n - cap + cap - 1) / cap + 1 = (n + cap - 1) / cap := by
  intro n hn
  rcases Nat.le_total cap n with hcn | hnc
  · have h1 : n - cap + cap - 1 = n - 1 := by omega
    have h2 : n + cap - 1 = (n - 1) + cap := by omega
    rw [h1, h2, Nat.add_div_right _ hcap]
  · have h1 : n - cap + cap - 1 = cap - 1 := by omega
    have h2 : (cap - 1) / cap = 0 := Nat.div_eq_of_lt (by omega)
    have h3 : (n + cap - 1) / cap = 1 := by
      apply Nat.div_eq_of_lt_le <;> omega
    rw [h1, h2, h3]

/-- Number of batches: the ceiling of `length / cap`. -/
lemma chunkBatchesGo_length {α : Type} (cap : Nat) (hcap : 0 < cap) :
    ∀ (fuel : Nat) (l : List α), l.length ≤ fuel →
      (chunkBatchesGo cap fuel l).length = (l.length + cap - 1) / cap := by
  intro fuel
  induction fuel with
  | zero =>
    intro l hl
    have h0 : l = [] := List.length_eq_zero.mp (Nat.le_zero.mp hl)
    subst h0
    simp [chunkBatchesGo_nil, Nat.div_eq_of_lt (show cap - 1 < cap by omega)]
  | succ f ih =>
    intro l hl
    cases l with
    | nil => simp [chunkBatchesGo_nil, Nat.div_eq_of_lt (show cap - 1 < cap by omega)]
    | cons a as =>
      have hlen : (List.drop cap (a :: as)).length ≤ f := by
        simp only [List.length_drop, List.length_cons] at hl ⊢
        omega
      have hrec := ih (List.drop cap (a :: as)) hlen
      have hgo : chunkBatchesGo cap (f + 1) (a :: as)
          = List.take cap (a :: as) :: chunkBatchesGo cap f (List.drop cap (a :: as)) := rfl
      rw [hgo, List.length_cons, hrec, List.length_drop]
      exact ceilDiv_step cap hcap (a :: as).length (by simp)

/-- The batches concatenate back to the original list. -/
lemma chunkBatchesGo_join {α : Type} (cap : Nat) (hcap : 0 < cap) :
    ∀ (fuel : Nat) (l : List α), l.length ≤ fuel →
      (chunkBatchesGo cap fuel l).flatten = l := by
  intro fuel
  induction fuel with
  | zero =>
    intro l hl
    have h0 : l = [] := List.length_eq_zero.mp (Nat.le_zero.mp hl)
    subst h0
    simp [chunkBatchesGo_nil]
  | succ f ih =>
    intro l hl
    cases l with
    | nil => simp [chunkBatchesGo_nil]
    | cons a as =>
      have hlen : (List.drop cap (a :: as)).length ≤ f := by
        simp only [List.length_drop, List.length_cons] at hl ⊢
        omega
      have hgo : chunkBatchesGo cap (f + 1) (a :: as)
          = List.take cap (a :: as) :: chunkBatchesGo cap f (List.drop cap (a :: as)) := rfl
      rw [hgo]
      have hcons : (List.take cap (a :: as) :: chunkBatchesGo cap f (List.drop cap (a :: as))).flatten
          = List.take cap (a :: as) ++ (chunkBatchesGo cap f (List.drop cap (a :: as))).flatten := rfl
      rw [hcons, ih _ hlen, List.take_append_drop]

/-- Every batch is non-empty and no larger than the cap. -/
lemma chunkBatchesGo_mem_size {α : Type} (cap : Nat) (hcap : 0 < cap) :
    ∀ (fuel : Nat) (l : List α) (b : List α),
      b ∈ chunkBatchesGo cap fuel l → b ≠ [] ∧ b.length ≤ cap := by
  intro fuel
  induction fuel with
  | zero =>
    intro l b hb
    simp [chunkBatchesGo] at hb
  | succ f ih =>
    intro l b hb
    cases l with
    | nil => simp [chunkBatchesGo_nil] at hb
    | cons a as =>
      have hgo : chunkBatchesGo cap (f + 1) (a :: as)
          = List.take cap (a :: as) :: chunkBatchesGo cap f (List.drop cap (a :: as)) := rfl
      rw [hgo] at hb
      rcases List.mem_cons.mp hb with h | h
      · subst h
        have hpos : 0 < (List.take cap (a :: as)).length := by
          rw [List.length_take]
          exact lt_min_iff.mpr ⟨hcap, by simp⟩
        exact ⟨List.length_pos.mp hpos,
          by simp [List.length_take]⟩
      · exact ih _ _ h

/-- All batches except possibly the last have exactly `cap` cases. -/
lemma chunkBatchesGo_dropLast_size {α : Type} (cap : Nat) (_hcap : 0 < cap) :
    ∀ (fuel : Nat) (l : List α) (b : List α),
      b ∈ (chunkBatchesGo cap fuel l).dropLast → b.length = cap := by
  intro fuel
  induction fuel with
  | zero =>
    intro l b hb
    simp [chunkBatchesGo] at hb
  | succ f ih =>
    intro l b hb
    cases l with
    | nil => simp [chunkBatchesGo_nil] at hb
    | cons a as =>
      have hgo : chunkBatchesGo cap (f + 1) (a :: as)
          = List.take cap (a :: as) :: chunkBatchesGo cap f (List.drop cap (a :: as)) := rfl
      rw [hgo] at hb
      cases hR : chunkBatchesGo cap f (List.drop cap (a :: as)) with
      | nil => simp [hR] at hb
      | cons r rs =>
        rw [hR] at hb
        rw [List.dropLast_cons₂] at hb
        rcases List.mem_cons.mp hb with h | h
        · subst h
          have hdrop : List.drop cap (a :: as) ≠ [] := by
            intro hd
            rw [hd, chunkBatchesGo_nil] at hR
            exact List.noConfusion hR
          have hlen : cap < (a :: as).length := by
            by_contra hc
            push_neg at hc
            exact hdrop (List.drop_eq_nil_of_le hc)
          rw [List.length_take]
          exact Nat.min_eq_left (Nat.le_of_lt hlen)
        · rw [← hR] at h
          exact ih _ _ h

/-- When no case throws, every batch runs and every case closes. -/
lemma runBatchesCloses_eq_join {α : Type} (outcome : α → CaseOutcome) :
    ∀ batches : List (List α),
      (∀ b ∈ batches, ∀ c ∈ b, outcome c ≠ .threw) →
      runBatchesCloses outcome batches = batches.flatten := by
  intro batches
  induction batches with
  | nil => intro _; rfl
  | cons b rest ih =>
    intro h
    have hb : b.any (fun c => outcome c == .threw) = false := by
      rw [List.any_eq_false]
      intro c hc
      simpa using h b (List.mem_cons_self _ _) c hc
    simp [runBatchesCloses, hb,
      ih (fun b2 hb2 => h b2 (List.mem_cons_of_mem _ hb2))]

/-- C8 (amended). With a positive cap the scheduler takes
`ceil(N / cap)` consecutive batches — every batch non-empty and of size
`cap` except possibly a smaller final one, together covering exactly the
pending cases — and when no case's execution throws, every case's
browser-session close runs exactly once (the close list is exactly the case
list, so 5 cases yield 5 close calls); a throwing case still closes, but the
run stops after its batch, so later batches never start. -/
theorem scheduler_batches_and_unconditional_close
    {α : Type} (outcome : α → CaseOutcome) (cases : List α) (cap : Nat) (hcap : 0 < cap) :
    (chunkBatches cap cases).length = (cases.length + cap - 1) / cap ∧
    (chunkBatches cap cases).flatten = cases ∧
    (∀ b ∈ chunkBatches cap cases, b ≠ [] ∧ b.length ≤ cap) ∧
    (∀ b ∈ (chunkBatches cap cases).dropLast, b.length = cap) ∧
    ((∀ c ∈ cases, outcome c ≠ .threw) →
      schedulerCloses outcome cases cap = cases) := by
  refine ⟨chunkBatchesGo_length cap hcap cases.length cases le_rfl,
    chunkBatchesGo_join cap hcap cases.length cases le_rfl,
    fun b hb => chunkBatchesGo_mem_size cap hcap cases.length cases b hb,
    fun b hb => chunkBatchesGo_dropLast_size cap hcap cases.length cases b hb,
    ?_⟩
  intro hno
  have hjoin : (chunkBatches cap cases).flatten = cases :=
    chunkBatchesGo_join cap hcap cases.length cases le_rfl
  have h : ∀ b ∈ chunkBatches cap cases, ∀ c ∈ b, outcome c ≠ .threw := by
    intro b hb c hc
    apply hno
    rw [← hjoin]
    exact List.mem_flatten.mpr ⟨b, hb, hc⟩
  unfold schedulerCloses
  rw [runBatchesCloses_eq_join outcome (chunkBatches cap cases) h, hjoin]

/-- Witness for the amended C8 at a concrete input: 5 cases, cap 2, no case
throws. -/
theorem scheduler_batches_and_unconditional_close_witness :
    (0 < 2) ∧
    ((chunkBatches 2 [0, 1, 2, 3, 4]).length = (([0, 1, 2, 3, 4] : List Nat).length + 2 - 1) / 2 ∧
     (chunkBatches 2 [0, 1, 2, 3, 4]).flatten = [0, 1, 2, 3, 4] ∧
     (∀ b ∈ chunkBatches 2 [0, 1, 2, 3, 4], b ≠ [] ∧ b.length ≤ 2) ∧
     (∀ b ∈ (chunkBatches 2 [0, 1, 2, 3, 4]).dropLast, b.length = 2) ∧
     ((∀ c ∈ ([0, 1, 2, 3, 4] : List Nat), (fun _ => CaseOutcome.passed) c ≠ .threw) →
       schedulerCloses (fun _ => CaseOutcome.passed) [0, 1, 2, 3, 4] 2 = [0, 1, 2, 3, 4])) :=
  ⟨by decide,
    scheduler_batches_and_unconditional_close (fun _ => CaseOutcome.passed)
      [0, 1, 2, 3, 4] 2 (by decide)⟩

/-! ## Properties of action-capture de-duplication -/

/-- C9. A polled event equal in type and description to the most recently
recorded action and arriving within 500ms of that action's timestamp is
dropped; an event differing in type or description, or arriving at 500ms or
later, is appended. -/
theorem recordAction_drops_near_duplicates
    (now : Int) (actions : List RecordedAction) (action lastAction : RecordedAction)
    (hlast : actions.getLast? = some lastAction) :
    ((action.type = lastAction.type ∧ action.description = lastAction.description ∧
        now - lastAction.timestamp < 500) →
      recordAction now actions action = actions) ∧
    ((action.type ≠ lastAction.type ∨ action.description ≠ lastAction.description ∨
        500 ≤ now - lastAction.timestamp) →
      recordAction now actions action = actions ++ [action]) := by
  constructor
  · rintro ⟨h1, h2, h3⟩
    simp [recordAction, hlast, h1, h2, h3]
  · intro h
    rcases h with h | h | h
    · simp [recordAction, hlast, h]
    · simp [recordAction, hlast, h]
    · have h3 : ¬ (now - lastAction.timestamp < 500) := not_lt.mpr h
      simp [recordAction, hlast, h3]

/-- A captured click event at timestamp 1000. -/
def sampleClickEvent : RecordedAction :=
  { timestamp := 1000, type := "click", description := "点击 登录按钮", element := none,
    value := none, url := none, selector := some "#login" }

/-- The same click polled again at timestamp 1100. -/
def sampleDupEvent : RecordedAction :=
  { sampleClickEvent with timestamp := 1100 }

/-- The same click happening again 600ms later. -/
def sampleLaterEvent : RecordedAction :=
  { sampleClickEvent with timestamp := 1600 }

/-- Witness for C9 at concrete inputs: the 100ms duplicate is dropped, the
600ms repeat is recorded. -/
theorem recordAction_drops_near_duplicates_witness :
    ([sampleClickEvent].getLast? = some sampleClickEvent) ∧
    (recordAction 1100 [sampleClickEvent] sampleDupEvent = [sampleClickEvent]) ∧
    (recordAction 1600 [sampleClickEvent] sampleLaterEvent
      = [sampleClickEvent, sampleLaterEvent]) :=
  ⟨rfl,
    (recordAction_drops_near_duplicates 1100 [sampleClickEvent] sampleDupEvent
      sampleClickEvent rfl).1 ⟨rfl, rfl, by decide⟩,
    (recordAction_drops_near_duplicates 1600 [sampleClickEvent] sampleLaterEvent
      sampleClickEvent rfl).2 (Or.inr (Or.inr (by decide)))⟩

end UiTest
